import Mathlib

/-!
Verification of the cadence task-processing core and server tooling.

Go strings are modelled as lists of characters (`GoString`), Go `int`/`int64`
as `Int`, and fallible operations as `Except`/`Option` results.  Components
whose implementation is not part of the sources (only their interfaces are)
are modelled from the specification; each such definition carries a doc
comment starting with `Modelled from the spec:`.
-/

/-- A Go string, modelled as its list of characters. -/
abbrev GoString := List Char

namespace HistoryTask

/-- Queue type for the active transfer queue processor (`iota + 1`, so 1). -/
def QueueTypeActiveTransfer : Int := 1

/-- Queue type for the standby transfer queue processor. -/
def QueueTypeStandbyTransfer : Int := 2

/-- Queue type for the active timer queue processor. -/
def QueueTypeActiveTimer : Int := 3

/-- Queue type for the standby timer queue processor. -/
def QueueTypeStandbyTimer : Int := 4

/-- Queue type for the replication queue processor. -/
def QueueTypeReplication : Int := 5

/-- Queue type for the cross cluster queue processor. -/
def QueueTypeCrossCluster : Int := 6

/-- All declared `QueueType` constants, in declaration order. -/
def queueTypeValues : List Int :=
  [QueueTypeActiveTransfer, QueueTypeStandbyTransfer, QueueTypeActiveTimer,
   QueueTypeStandbyTimer, QueueTypeReplication, QueueTypeCrossCluster]

end HistoryTask

namespace CadenceServer

/-- Embeds `filepath.IsAbs` for Unix paths: a path is absolute iff it starts
with a slash (`strings.HasPrefix(path, "/")`). -/
def isAbs (path : GoString) : Bool :=
  match path with
  | '/' :: _ => true
  | _ => false

/-- Embeds `constructPathIfNeed`: append `dir` as the root dir when `file`
is not an absolute path. -/
def constructPathIfNeed (dir file : GoString) : GoString :=
  if !(isAbs file) then dir ++ ['/'] ++ file
  else file

/-- Character class used by `strings.TrimSpace` (ASCII fragment of Unicode
white space). -/
def isSpaceChar (c : Char) : Bool :=
  c == ' ' || c == '\t' || c == '\n' || c == '\x0b' || c == '\x0c' || c == '\r'

/-- Embeds `strings.TrimSpace`: drop leading and trailing white space. -/
def trimSpace (s : GoString) : GoString :=
  ((s.dropWhile isSpaceChar).reverse.dropWhile isSpaceChar).reverse

/-- Embeds `strings.Split` for a one-character separator: the slice of
substrings between consecutive separators.  Splitting the empty string
yields one (empty) token, as in Go. -/
def split (sep : Char) : GoString → List GoString
  | [] => [[]]
  | c :: rest =>
    if c == sep then [] :: split sep rest
    else
      match split sep rest with
      | [] => [[c]]
      | t :: ts => (c :: t) :: ts

/-- The two fatal outcomes of `getServices`. -/
inductive GetServicesError where
  | emptyServiceList
  | invalidService (s : GoString)
deriving DecidableEq

/-- Embeds `isValidService`: linear scan of the valid service names. -/
def isValidService (validServices : List GoString) (s : GoString) : Bool :=
  validServices.any (fun v => v == s)

/-- Embeds `getServices`: trim the flag value, split it on commas, abort when
the token list is empty, abort on the first invalid token, otherwise return
the token list. -/
def getServices (validServices : List GoString) (servicesArg : GoString) :
    Except GetServicesError (List GoString) :=
  let val := trimSpace servicesArg
  let tokens := split ',' val
  if tokens.length = 0 then Except.error GetServicesError.emptyServiceList
  else
    match tokens.find? (fun t => !(isValidService validServices t)) with
    | some t => Except.error (GetServicesError.invalidService t)
    | none => Except.ok tokens

theorem split_ne_nil (sep : Char) : ∀ s : GoString, split sep s ≠ [] := by
  intro s
  induction s with
  | nil => simp [split]
  | cons c rest ih =>
    by_cases h : (c == sep) = true
    · simp [split, h]
    · simp only [split, h, Bool.false_eq_true, if_false]
      cases hrec : split sep rest with
      | nil => simp
      | cons t ts => simp

end CadenceServer

/-- C7: The QueueType enumeration contains exactly the six values
active transfer, standby transfer, active timer, standby timer, replication
and cross cluster; they are the distinct consecutive integers 1 through 6,
and the zero value is not among them. -/
theorem queueType_six_consecutive_values :
    HistoryTask.queueTypeValues = [1, 2, 3, 4, 5, 6] ∧
    HistoryTask.queueTypeValues.Nodup ∧
    HistoryTask.queueTypeValues.length = 6 ∧
    (0 : Int) ∉ HistoryTask.queueTypeValues := by
  refine ⟨rfl, by decide, rfl, by decide⟩

/-- C8: `constructPathIfNeed dir file` returns `file` unchanged when `file`
is an absolute path, and otherwise returns `dir ++ "/" ++ file`. -/
theorem constructPathIfNeed_correct (dir file : GoString) :
    (CadenceServer.isAbs file = true →
      CadenceServer.constructPathIfNeed dir file = file) ∧
    (CadenceServer.isAbs file = false →
      CadenceServer.constructPathIfNeed dir file = dir ++ ['/'] ++ file) := by
  constructor
  · intro h
    simp [CadenceServer.constructPathIfNeed, h]
  · intro h
    simp [CadenceServer.constructPathIfNeed, h]

/-- Witness for C8 at concrete inputs: a relative file is rooted under the
directory, an absolute file is returned unchanged. -/
theorem constructPathIfNeed_correct_witness :
    CadenceServer.constructPathIfNeed ['/', 'r'] ['c', 'f', 'g'] =
      ['/', 'r', '/', 'c', 'f', 'g'] ∧
    CadenceServer.constructPathIfNeed ['/', 'r'] ['/', 'a'] = ['/', 'a'] :=
  ⟨(constructPathIfNeed_correct ['/', 'r'] ['c', 'f', 'g']).2 (by decide),
   (constructPathIfNeed_correct ['/', 'r'] ['/', 'a']).1 (by decide)⟩

/-- C9: in `getServices` the branch aborting with "list of services is
empty" is unreachable: splitting any string on a comma yields at least one
token; an empty or whitespace-only services value is instead rejected by the
per-token validity check, the empty string not being a valid service name. -/
theorem getServices_emptyBranch_unreachable
    (validServices : List GoString) (servicesArg : GoString)
    (hempty : CadenceServer.isValidService validServices [] = false) :
    (∀ s : GoString, CadenceServer.split ',' s ≠ []) ∧
    CadenceServer.getServices validServices servicesArg ≠
      Except.error CadenceServer.GetServicesError.emptyServiceList ∧
    (CadenceServer.trimSpace servicesArg = [] →
      CadenceServer.getServices validServices servicesArg =
        Except.error (CadenceServer.GetServicesError.invalidService [])) := by
  refine ⟨CadenceServer.split_ne_nil ',', ?_, ?_⟩
  · unfold CadenceServer.getServices
    have hne := CadenceServer.split_ne_nil ',' (CadenceServer.trimSpace servicesArg)
    have hlen : (CadenceServer.split ',' (CadenceServer.trimSpace servicesArg)).length ≠ 0 := by
      simpa [List.length_eq_zero] using hne
    simp only [hlen, if_false]
    cases hfind : (CadenceServer.split ',' (CadenceServer.trimSpace servicesArg)).find?
        (fun t => !(CadenceServer.isValidService validServices t)) with
    | none => simp [hfind]
    | some t => simp [hfind]
  · intro htrim
    unfold CadenceServer.getServices
    rw [htrim]
    simp [CadenceServer.split, hempty]

/-- Witness for C9: with the valid service list `["h"]` and a whitespace-only
services flag, the empty-list branch is not taken and the result is the
invalid-service error for the empty token. -/
theorem getServices_emptyBranch_unreachable_witness :
    CadenceServer.getServices [['h']] [' ', ' '] =
      Except.error (CadenceServer.GetServicesError.invalidService []) :=
  (getServices_emptyBranch_unreachable [['h']] [' ', ' '] (by decide)).2.2 (by decide)

namespace HistoryTask

/-- Modelled from the spec: the concrete `Key` implementation is not among
the sources (only the `Key` interface with its `Less` method is declared
there); per §3 of the spec a key is the pair of the visibility timestamp
(modelled as an integer instant) and the task ID. -/
structure Key where
  visibilityTimestamp : Int
  taskID : Int
deriving DecidableEq

/-- Modelled from the spec: `Key.Less` compares by visibility time first,
then by task ID as a tie-break. -/
def Key.Less (a b : Key) : Prop :=
  a.visibilityTimestamp < b.visibilityTimestamp ∨
    (a.visibilityTimestamp = b.visibilityTimestamp ∧ a.taskID < b.taskID)

instance : DecidableRel Key.Less := fun a b => by
  unfold Key.Less
  infer_instance

/-- The non-strict order induced by `Key.Less`, used for sorting. -/
def Key.le (a b : Key) : Prop := ¬ Key.Less b a

instance : DecidableRel Key.le := fun a b => by
  unfold Key.le
  infer_instance

theorem Key.less_irrefl (a : Key) : ¬ Key.Less a a := by
  unfold Key.Less
  omega

theorem Key.less_trans {a b c : Key} (hab : Key.Less a b) (hbc : Key.Less b c) :
    Key.Less a c := by
  unfold Key.Less at *
  omega

theorem Key.less_asymm {a b : Key} (h : Key.Less a b) : ¬ Key.Less b a := by
  unfold Key.Less at *
  omega

theorem Key.less_trichotomy (a b : Key) : Key.Less a b ∨ a = b ∨ Key.Less b a := by
  by_cases he : a = b
  · exact Or.inr (Or.inl he)
  · have hne : a.visibilityTimestamp ≠ b.visibilityTimestamp ∨ a.taskID ≠ b.taskID := by
      by_contra hc
      push_neg at hc
      exact he (by cases a; cases b; simp_all)
    unfold Key.Less
    rcases hne with h | h
    · omega
    · omega

instance : IsTotal Key Key.le where
  total a b := by
    by_cases h : Key.Less b a
    · exact Or.inr (Key.less_asymm h)
    · exact Or.inl h

instance : IsTrans Key Key.le where
  trans a b c hab hbc := by
    intro hca
    rcases Key.less_trichotomy a b with h | h | h
    · exact hbc (Key.less_trans hca h)
    · exact hbc (h ▸ hca)
    · exact hab h

/-- Sorting a list of keys by the `Key` order. -/
def sortByKey (l : List Key) : List Key := List.insertionSort Key.le l

end HistoryTask

/-- C1: on keys with distinct `(VisibilityTimestamp, TaskID)` pairs the
`Key.Less` order (visibility timestamp first, task ID tie-break) is a strict
total order — irreflexive, transitive, antisymmetric and total, with exactly
one of `a.Less b` and `b.Less a` holding — and sorting any list of keys by
`Key` is idempotent. -/
theorem keyLess_strict_total_order :
    (∀ a : HistoryTask.Key, ¬ a.Less a) ∧
    (∀ a b c : HistoryTask.Key, a.Less b → b.Less c → a.Less c) ∧
    (∀ a b : HistoryTask.Key, a.Less b → ¬ b.Less a) ∧
    (∀ a b : HistoryTask.Key, a ≠ b → (a.Less b ∨ b.Less a)) ∧
    (∀ a b : HistoryTask.Key, a ≠ b → ¬ (a.Less b ∧ b.Less a)) ∧
    (∀ l : List HistoryTask.Key,
      HistoryTask.sortByKey (HistoryTask.sortByKey l) = HistoryTask.sortByKey l) := by
  refine ⟨HistoryTask.Key.less_irrefl,
          fun a b c => HistoryTask.Key.less_trans,
          fun a b => HistoryTask.Key.less_asymm,
          ?_, ?_, ?_⟩
  · intro a b hne
    rcases HistoryTask.Key.less_trichotomy a b with h | h | h
    · exact Or.inl h
    · exact absurd h hne
    · exact Or.inr h
  · intro a b hne ⟨h1, h2⟩
    exact HistoryTask.Key.less_asymm h1 h2
  · intro l
    show List.insertionSort HistoryTask.Key.le (HistoryTask.sortByKey l) =
      HistoryTask.sortByKey l
    exact List.Sorted.insertionSort_eq (List.sorted_insertionSort HistoryTask.Key.le l)

/-- Witness for C1: two concrete keys sharing a visibility timestamp but with
distinct task IDs are comparable one way or the other. -/
theorem keyLess_strict_total_order_witness :
    HistoryTask.Key.Less ⟨1, 2⟩ ⟨1, 3⟩ ∨ HistoryTask.Key.Less ⟨1, 3⟩ ⟨1, 2⟩ :=
  keyLess_strict_total_order.2.2.2.1 ⟨1, 2⟩ ⟨1, 3⟩ (by decide)

namespace HistoryTask

/-- Modelled from the spec: the concrete task implementation is not among the
sources (only the `Task` interface is declared there); per §3 a task carries
its identity fields, a queue type, a retry attempt counter and a priority. -/
structure TaskData where
  DomainID : GoString
  WorkflowID : GoString
  RunID : GoString
  TaskID : Int
  Version : Int
  TaskType : Int
  VisibilityTimestamp : Int
  QueueType : Int
  Attempt : Nat
  priority : Int
deriving DecidableEq

/-- Modelled from the spec: an `Initializer` creates a task from a persisted
`Info` record with the retry counter starting at 0. -/
def newTask (domainID workflowID runID : GoString)
    (taskID version taskType visTs queueType : Int) : TaskData :=
  { DomainID := domainID, WorkflowID := workflowID, RunID := runID,
    TaskID := taskID, Version := version, TaskType := taskType,
    VisibilityTimestamp := visTs, QueueType := queueType,
    Attempt := 0, priority := 0 }

/-- Modelled from the spec: re-submission via the Redispatcher increments the
attempt counter by exactly one. -/
def redispatchResubmit (t : TaskData) : TaskData :=
  { t with Attempt := t.Attempt + 1 }

/-- Modelled from the spec: priority assignment attaches a priority computed
by the `PriorityAssigner`; nothing else changes. -/
def assignPriority (p : Int) (t : TaskData) : TaskData :=
  { t with priority := p }

/-- Modelled from the spec: a task routed to the Redispatcher because of an
admission error (Filter or PriorityAssigner failure) is handed over as is,
its attempt counter unchanged. -/
def routeOnAdmissionError (t : TaskData) : TaskData := t

/-- The identity fields of a task, fixed at creation. -/
def identityOf (t : TaskData) :
    GoString × GoString × GoString × Int × Int × Int × Int × Int :=
  (t.DomainID, t.WorkflowID, t.RunID, t.TaskID, t.Version, t.TaskType,
   t.VisibilityTimestamp, t.QueueType)

/-- A concrete task used by witnesses. -/
def sampleTask : TaskData :=
  { DomainID := [], WorkflowID := [], RunID := [], TaskID := 0, Version := 0,
    TaskType := 0, VisibilityTimestamp := 0, QueueType := 1,
    Attempt := 0, priority := 0 }

/-- The terminal lifecycle error returned by operations invoked after a
component's `Stop()`. -/
inductive ProcError where
  | stopped
deriving DecidableEq

/-- Modelled from the spec: the Processor worker pool, abstracted to its
capacity bookkeeping — pool size, occupied workers, and the daemon's stopped
flag. -/
structure ProcessorState where
  workerCapacity : Nat
  activeTasks : Nat
  stopped : Bool
deriving DecidableEq

/-- Modelled from the spec: `TrySubmit` is the non-blocking submission; it
fails with `Stopped` after `Stop()`, reports saturation with `false` and no
error when the pool is at capacity, and otherwise accepts the task,
occupying a worker slot. -/
def trySubmit (s : ProcessorState) (_t : TaskData) :
    (Bool × Option ProcError) × ProcessorState :=
  if s.stopped then ((false, some ProcError.stopped), s)
  else if s.activeTasks < s.workerCapacity then
    ((true, none), { s with activeTasks := s.activeTasks + 1 })
  else ((false, none), s)

/-- Modelled from the spec: `Submit` is the blocking submission; after
`Stop()` it fails with a `Stopped` error instead of hanging (the blocking
wait itself is not modelled). -/
def submit (s : ProcessorState) (_t : TaskData) :
    Option ProcError × ProcessorState :=
  if s.stopped then (some ProcError.stopped, s)
  else (none, { s with activeTasks := s.activeTasks + 1 })

/-- Modelled from the spec: a worker finishing its task frees its slot. -/
def completeWorker (s : ProcessorState) : ProcessorState :=
  { s with activeTasks := s.activeTasks - 1 }

/-- Modelled from the spec: `Stop()` marks the processor stopped. -/
def stopProcessor (s : ProcessorState) : ProcessorState :=
  { s with stopped := true }

/-- Modelled from the spec: the Redispatcher retry buffer together with its
daemon stopped flag. -/
structure RedispatcherState where
  buffer : List TaskData
  stopped : Bool
deriving DecidableEq

/-- Modelled from the spec: `AddTask` inserts into the buffer without
blocking; after `Stop()` the operation is rejected with a `Stopped` error. -/
def addTask (s : RedispatcherState) (t : TaskData) :
    Option ProcError × RedispatcherState :=
  if s.stopped then (some ProcError.stopped, s)
  else (none, { s with buffer := s.buffer ++ [t] })

/-- Modelled from the spec: `Stop()` marks the redispatcher stopped. -/
def stopRedispatcher (s : RedispatcherState) : RedispatcherState :=
  { s with stopped := true }

/-- Outcome of a `Fetch` call: a pending future, or an immediate `Stopped`
failure when the fetcher is stopped. -/
inductive FetchResult where
  | pending (futureId : Nat)
  | failedStopped
deriving DecidableEq

/-- Modelled from the spec: the Fetcher aggregates per-shard fetch requests;
its state tracks pending futures, resolved futures with their error outcome,
the daemon's stopped flag and a fresh future id. -/
structure FetcherState where
  sourceCluster : GoString
  pendingFutures : List Nat
  resolvedFutures : List (Nat × Option ProcError)
  stopped : Bool
  nextFutureId : Nat
deriving DecidableEq

/-- Modelled from the spec: `Fetch` registers interest for a shard's pending
tasks, returning a future; when the fetcher is stopped the future fails
immediately with `Stopped`. -/
def fetch (s : FetcherState) (_shardID : Int) : FetchResult × FetcherState :=
  if s.stopped then (FetchResult.failedStopped, s)
  else (FetchResult.pending s.nextFutureId,
        { s with pendingFutures := s.pendingFutures ++ [s.nextFutureId],
                 nextFutureId := s.nextFutureId + 1 })

/-- Modelled from the spec: `Stop()` fails every pending future with a
`Stopped` error rather than leaving it unresolved. -/
def stopFetcher (s : FetcherState) : FetcherState :=
  { s with stopped := true,
           pendingFutures := [],
           resolvedFutures := s.resolvedFutures ++
             s.pendingFutures.map (fun id => (id, some ProcError.stopped)) }

theorem trySubmit_true_state {s : ProcessorState} {t : TaskData}
    {e : Option ProcError} {s1 : ProcessorState}
    (h : trySubmit s t = ((true, e), s1)) :
    s1.activeTasks = s.activeTasks + 1 ∧ s1.stopped = s.stopped ∧
      s1.workerCapacity = s.workerCapacity := by
  unfold trySubmit at h
  split at h
  · simp at h
  · split at h
    · obtain ⟨h1, h2⟩ := Prod.mk.injEq .. ▸ h
      subst h2
      simp
    · simp at h

end HistoryTask

/-- C5: `Attempt` starts at 0; a task is mutated only by attempt increments
and priority assignment: a redispatch increments `Attempt` by exactly one,
routing on an admission error leaves the task unchanged, and the identity
fields never change under any of these operations. -/
theorem task_attempt_and_identity_frame :
    (∀ d w r tid v tt vts qt,
      (HistoryTask.newTask d w r tid v tt vts qt).Attempt = 0) ∧
    (∀ t : HistoryTask.TaskData,
      (HistoryTask.redispatchResubmit t).Attempt = t.Attempt + 1) ∧
    (∀ t : HistoryTask.TaskData, HistoryTask.routeOnAdmissionError t = t) ∧
    (∀ t : HistoryTask.TaskData,
      HistoryTask.identityOf (HistoryTask.redispatchResubmit t) =
        HistoryTask.identityOf t) ∧
    (∀ (p : Int) (t : HistoryTask.TaskData),
      HistoryTask.identityOf (HistoryTask.assignPriority p t) =
        HistoryTask.identityOf t) :=
  ⟨fun _ _ _ _ _ _ _ _ => rfl, fun _ => rfl, fun _ => rfl, fun _ => rfl,
   fun _ _ => rfl⟩

/-- C3: on a running processor `TrySubmit` returns `false` with no error
exactly when the pool is at capacity, returns `true` exactly when there is a
free worker, and after a worker completes on a full pool the next
`TrySubmit` returns `true` (no permanent starvation). -/
theorem trySubmit_backpressure (s : HistoryTask.ProcessorState)
    (t t2 : HistoryTask.TaskData) (hrun : s.stopped = false) :
    ((HistoryTask.trySubmit s t).1 = (false, none) ↔
      s.workerCapacity ≤ s.activeTasks) ∧
    ((HistoryTask.trySubmit s t).1.1 = true ↔
      s.activeTasks < s.workerCapacity) ∧
    (s.activeTasks = s.workerCapacity → 0 < s.workerCapacity →
      (HistoryTask.trySubmit (HistoryTask.completeWorker s) t2).1.1 = true) := by
  unfold HistoryTask.trySubmit HistoryTask.completeWorker
  refine ⟨?_, ?_, ?_⟩
  · simp only [hrun, Bool.false_eq_true, if_false]
    split
    · simp
      omega
    · simp
      omega
  · simp only [hrun, Bool.false_eq_true, if_false]
    split
    · simp
      omega
    · simp
      omega
  · intro hfull hpos
    simp only [hrun, Bool.false_eq_true, if_false]
    have : s.activeTasks - 1 < s.workerCapacity := by omega
    simp [this]

/-- Witness for C3 at a full pool of size 1: `TrySubmit` saturates, and
succeeds again right after the worker completes. -/
theorem trySubmit_backpressure_witness :
    (HistoryTask.trySubmit ⟨1, 1, false⟩ HistoryTask.sampleTask).1 =
      (false, none) ∧
    (HistoryTask.trySubmit (HistoryTask.completeWorker ⟨1, 1, false⟩)
      HistoryTask.sampleTask).1.1 = true := by
  have h := trySubmit_backpressure ⟨1, 1, false⟩ HistoryTask.sampleTask
    HistoryTask.sampleTask rfl
  exact ⟨h.1.mpr (by decide), h.2.2 rfl (by decide)⟩

/-- C4: every operation invoked after the owning component's `Stop()` fails
with the terminal `Stopped` error — `Submit`, `TrySubmit`, `AddTask` and
`Fetch` alike — and the Fetcher's `Stop()` resolves every pending future
with a `Stopped` error rather than leaving it unresolved. -/
theorem stopped_operations_fail (p : HistoryTask.ProcessorState)
    (r : HistoryTask.RedispatcherState) (f : HistoryTask.FetcherState)
    (t : HistoryTask.TaskData) (sh : Int) :
    (HistoryTask.submit (HistoryTask.stopProcessor p) t).1 =
      some HistoryTask.ProcError.stopped ∧
    (HistoryTask.trySubmit (HistoryTask.stopProcessor p) t).1.2 =
      some HistoryTask.ProcError.stopped ∧
    (HistoryTask.addTask (HistoryTask.stopRedispatcher r) t).1 =
      some HistoryTask.ProcError.stopped ∧
    (HistoryTask.fetch (HistoryTask.stopFetcher f) sh).1 =
      HistoryTask.FetchResult.failedStopped ∧
    (HistoryTask.stopFetcher f).pendingFutures = [] ∧
    (∀ id ∈ f.pendingFutures,
      (id, some HistoryTask.ProcError.stopped) ∈
        (HistoryTask.stopFetcher f).resolvedFutures) := by
  refine ⟨rfl, rfl, rfl, rfl, rfl, ?_⟩
  intro id hid
  simp only [HistoryTask.stopFetcher, List.mem_append, List.mem_map]
  exact Or.inr ⟨id, hid, rfl⟩

/-- Witness for C4: stopping a fetcher with one pending future resolves it
with the `Stopped` error. -/
theorem stopped_operations_fail_witness :
    (7, some HistoryTask.ProcError.stopped) ∈
      (HistoryTask.stopFetcher ⟨[], [7], [], false, 8⟩).resolvedFutures :=
  (stopped_operations_fail ⟨0, 0, false⟩ ⟨[], false⟩ ⟨[], [7], [], false, 8⟩
    HistoryTask.sampleTask 0).2.2.2.2.2 7 (by decide)

namespace HistoryTask

/-- Modelled from the spec: `Redispatch(targetSize)` drains the buffer and
resubmits each task via `TrySubmit` (the re-submission carrying the
incremented attempt), stopping as soon as the buffer size falls below
`targetSize` or the Processor reports saturation; a task whose submission
fails stays buffered together with everything behind it. -/
def redispatchLoop (p : ProcessorState) (buffer : List TaskData)
    (targetSize : Nat) : ProcessorState × List TaskData :=
  if buffer.length < targetSize then (p, buffer)
  else
    match buffer with
    | [] => (p, buffer)
    | t :: rest =>
      match trySubmit p (redispatchResubmit t) with
      | ((true, _), p1) => redispatchLoop p1 rest targetSize
      | ((false, _), _) => (p, t :: rest)

end HistoryTask

/-- C6: `Redispatch(targetSize)` removes a prefix of the buffer, resubmitting
each removed task to the Processor (each successful `TrySubmit` occupies one
worker slot), so no task is lost; it stops exactly when the remaining buffer
is below `targetSize`, is exhausted, or the Processor saturates on the next
task. -/
theorem redispatch_drains_or_saturates (p : HistoryTask.ProcessorState)
    (buffer : List HistoryTask.TaskData) (targetSize : Nat) :
    (∃ k : Nat, k ≤ buffer.length ∧
      (HistoryTask.redispatchLoop p buffer targetSize).2 = buffer.drop k ∧
      (HistoryTask.redispatchLoop p buffer targetSize).1.activeTasks =
        p.activeTasks + k) ∧
    ((HistoryTask.redispatchLoop p buffer targetSize).2.length < targetSize ∨
     (HistoryTask.redispatchLoop p buffer targetSize).2 = [] ∨
     (∀ t, (HistoryTask.redispatchLoop p buffer targetSize).2.head? = some t →
       (HistoryTask.trySubmit (HistoryTask.redispatchLoop p buffer targetSize).1
         (HistoryTask.redispatchResubmit t)).1.1 = false)) := by
  induction buffer generalizing p with
  | nil =>
    unfold HistoryTask.redispatchLoop
    refine ⟨⟨0, by simp⟩, Or.inr (Or.inl ?_)⟩
    split <;> simp
  | cons t rest ih =>
    unfold HistoryTask.redispatchLoop
    by_cases hlen : (t :: rest).length < targetSize
    · simp only [hlen, if_true]
      exact ⟨⟨0, by simp⟩, Or.inl (by simp [hlen])⟩
    · simp only [hlen, if_false]
      cases htry : HistoryTask.trySubmit p (HistoryTask.redispatchResubmit t) with
      | mk res p1 =>
        cases res with
        | mk ok err =>
          cases ok with
          | true =>
            obtain ⟨⟨k, hk, hdrop, hact⟩, hstop⟩ := ih p1
            have hstate := HistoryTask.trySubmit_true_state htry
            refine ⟨⟨k + 1, by simpa using Nat.succ_le_succ hk, ?_, ?_⟩, ?_⟩
            · simpa [htry] using hdrop
            · simp only [htry]
              omega
            · simpa [htry] using hstop
          | false =>
            refine ⟨⟨0, by simp [htry]⟩, Or.inr (Or.inr ?_)⟩
            intro u hu
            simp only [htry, List.head?_cons, Option.some.injEq] at hu
            subst hu
            simp only [htry]

/-- Witness for C6: a full processor of size zero accepts nothing, so the
whole buffer remains and the stop condition is saturation on the head. -/
theorem redispatch_drains_or_saturates_witness :
    (HistoryTask.redispatchLoop ⟨0, 0, false⟩ [HistoryTask.sampleTask] 0).2 =
      [HistoryTask.sampleTask].drop 0 ∧
    (HistoryTask.redispatchLoop ⟨0, 0, false⟩ [HistoryTask.sampleTask] 0).1.activeTasks =
      (0 : Nat) + 0 := by
  obtain ⟨⟨k, hk, hdrop, hact⟩, hstop⟩ :=
    redispatch_drains_or_saturates ⟨0, 0, false⟩ [HistoryTask.sampleTask] 0
  have hk0 : k = 0 := by
    rcases Nat.le_one_iff_eq_zero_or_eq_one.mp (by simpa using hk) with h | h
    · exact h
    · subst h
      exfalso
      revert hact
      simp [HistoryTask.redispatchLoop, HistoryTask.trySubmit]
  subst hk0
  exact ⟨hdrop, hact⟩

namespace HistoryTask

/-- Shards are identified by an integer id. -/
abbrev ShardId := Nat

/-- Modelled from the spec: the observable state of the multi-shard
Processor — queued tasks per shard, in-flight executions, the set of shards
whose processing has been stopped, the log of `Execute` calls made, and the
tasks handed back to the per-shard redispatchers. -/
structure ShardProcessorState where
  queued : List (ShardId × TaskData)
  inFlight : List (ShardId × TaskData)
  stoppedShards : List ShardId
  executed : List (ShardId × TaskData)
  redispatchBuffers : List (ShardId × TaskData)
deriving DecidableEq

/-- Events of the multi-shard Processor. -/
inductive ProcEvent where
  | submitTask (sh : ShardId) (t : TaskData)
  | startExecute (sh : ShardId) (t : TaskData)
  | finishExecute (sh : ShardId) (t : TaskData) (failed : Bool)
  | stopShard (sh : ShardId)
deriving DecidableEq

/-- Modelled from the spec: one step of the multi-shard Processor.
`StopShardProcessor` discards the shard's queued tasks and marks the shard
stopped; a worker only starts executing a queued task of a live shard; when
an in-flight execution of a stopped shard's task finishes, the task is
dropped and its result discarded — neither escalated as an error nor
requeued to that shard's redispatcher — while a failed execution for a live
shard is handed to the redispatcher with the attempt incremented. -/
def procStep (s : ShardProcessorState) : ProcEvent → ShardProcessorState
  | ProcEvent.submitTask sh t =>
    if sh ∈ s.stoppedShards then s
    else { s with queued := s.queued ++ [(sh, t)] }
  | ProcEvent.startExecute sh t =>
    if sh ∈ s.stoppedShards ∨ (sh, t) ∉ s.queued then s
    else { s with queued := s.queued.erase (sh, t),
                  inFlight := s.inFlight ++ [(sh, t)],
                  executed := s.executed ++ [(sh, t)] }
  | ProcEvent.finishExecute sh t failed =>
    if (sh, t) ∉ s.inFlight then s
    else if sh ∈ s.stoppedShards then
      { s with inFlight := s.inFlight.erase (sh, t) }
    else if failed then
      { s with inFlight := s.inFlight.erase (sh, t),
               redispatchBuffers :=
                 s.redispatchBuffers ++ [(sh, redispatchResubmit t)] }
    else { s with inFlight := s.inFlight.erase (sh, t) }
  | ProcEvent.stopShard sh =>
    { s with stoppedShards := sh :: s.stoppedShards,
             queued := s.queued.filter (fun p => p.1 != sh) }

/-- Running a sequence of events from a state. -/
def runEvents (s : ShardProcessorState) (evs : List ProcEvent) :
    ShardProcessorState :=
  evs.foldl procStep s

theorem procStep_stoppedShards_mono {s : ShardProcessorState} {sh : ShardId}
    (h : sh ∈ s.stoppedShards) (e : ProcEvent) :
    sh ∈ (procStep s e).stoppedShards := by
  cases e with
  | submitTask sh2 t =>
    simp only [procStep]
    split <;> simpa
  | startExecute sh2 t =>
    simp only [procStep]
    split <;> simpa
  | finishExecute sh2 t failed =>
    simp only [procStep]
    split
    · simpa
    · split
      · simpa
      · split <;> simpa
  | stopShard sh2 =>
    simp only [procStep, List.mem_cons]
    exact Or.inr h

theorem procStep_executed_filter {s : ShardProcessorState} {sh : ShardId}
    (h : sh ∈ s.stoppedShards) (e : ProcEvent) :
    (procStep s e).executed.filter (fun p => p.1 == sh) =
      s.executed.filter (fun p => p.1 == sh) := by
  cases e with
  | submitTask sh2 t =>
    simp only [procStep]
    split <;> rfl
  | startExecute sh2 t =>
    simp only [procStep]
    split
    · rfl
    · rename_i hguard
      push_neg at hguard
      have hne : sh2 ≠ sh := fun he => hguard.1 (he ▸ h)
      simp [List.filter_append, hne]
  | finishExecute sh2 t failed =>
    simp only [procStep]
    split
    · rfl
    · split
      · rfl
      · split <;> rfl
  | stopShard sh2 => rfl

theorem runEvents_executed_filter (sh : ShardId) (evs : List ProcEvent) :
    ∀ s : ShardProcessorState, sh ∈ s.stoppedShards →
      (runEvents s evs).executed.filter (fun p => p.1 == sh) =
        s.executed.filter (fun p => p.1 == sh) := by
  induction evs with
  | nil =>
    intro s h
    rfl
  | cons e evs ih =>
    intro s h
    have h1 := procStep_stoppedShards_mono h e
    have h2 := procStep_executed_filter h e
    show (runEvents (procStep s e) evs).executed.filter (fun p => p.1 == sh) =
      s.executed.filter (fun p => p.1 == sh)
    rw [ih (procStep s e) h1, h2]

end HistoryTask

/-- C2: once `StopShardProcessor(sh)` has returned, every queued task of
`sh` has been discarded, no `Execute` call for an `sh` task is ever made
afterwards (the `sh` entries of the execution log never grow again under any
sequence of further events), and an in-flight `sh` task is allowed to finish
but its result is discarded: it is removed from the in-flight set without
touching the shard's redispatcher buffer or the execution log. -/
theorem stopShardProcessor_no_execution_after
    (s : HistoryTask.ShardProcessorState) (sh : HistoryTask.ShardId) :
    (∀ t, (sh, t) ∉
      (HistoryTask.procStep s (HistoryTask.ProcEvent.stopShard sh)).queued) ∧
    (∀ evs : List HistoryTask.ProcEvent,
      (HistoryTask.runEvents
          (HistoryTask.procStep s (HistoryTask.ProcEvent.stopShard sh))
          evs).executed.filter (fun p => p.1 == sh) =
        (HistoryTask.procStep s
          (HistoryTask.ProcEvent.stopShard sh)).executed.filter
          (fun p => p.1 == sh)) ∧
    (∀ (s2 : HistoryTask.ShardProcessorState) (t : HistoryTask.TaskData)
        (failed : Bool), sh ∈ s2.stoppedShards → (sh, t) ∈ s2.inFlight →
      (HistoryTask.procStep s2
          (HistoryTask.ProcEvent.finishExecute sh t failed)).redispatchBuffers =
        s2.redispatchBuffers ∧
      (HistoryTask.procStep s2
          (HistoryTask.ProcEvent.finishExecute sh t failed)).executed =
        s2.executed ∧
      (HistoryTask.procStep s2
          (HistoryTask.ProcEvent.finishExecute sh t failed)).inFlight =
        s2.inFlight.erase (sh, t)) := by
  refine ⟨?_, ?_, ?_⟩
  · intro t
    simp [HistoryTask.procStep, List.mem_filter]
  · intro evs
    exact HistoryTask.runEvents_executed_filter sh evs _ (by
      simp [HistoryTask.procStep])
  · intro s2 t failed hstopped hinflight
    simp only [HistoryTask.procStep]
    rw [if_neg (by simpa using hinflight), if_pos hstopped]
    exact ⟨rfl, rfl, rfl⟩

/-- Witness for C2: with one queued task of shard 1, stopping the shard
discards it; an attempt to start executing it afterwards leaves the
execution log without shard-1 entries; finishing an in-flight shard-1 task
after the stop leaves the redispatch buffers empty. -/
theorem stopShardProcessor_no_execution_after_witness :
    ((1, HistoryTask.sampleTask) ∉
      (HistoryTask.procStep ⟨[(1, HistoryTask.sampleTask)], [], [], [], []⟩
        (HistoryTask.ProcEvent.stopShard 1)).queued) ∧
    (HistoryTask.runEvents
        (HistoryTask.procStep ⟨[(1, HistoryTask.sampleTask)], [], [], [], []⟩
          (HistoryTask.ProcEvent.stopShard 1))
        [HistoryTask.ProcEvent.startExecute 1 HistoryTask.sampleTask]).executed.filter
        (fun p => p.1 == 1) =
      (HistoryTask.procStep ⟨[(1, HistoryTask.sampleTask)], [], [], [], []⟩
        (HistoryTask.ProcEvent.stopShard 1)).executed.filter
        (fun p => p.1 == 1) ∧
    (HistoryTask.procStep ⟨[], [(1, HistoryTask.sampleTask)], [1], [], []⟩
        (HistoryTask.ProcEvent.finishExecute 1 HistoryTask.sampleTask
          true)).redispatchBuffers = [] := by
  have h := stopShardProcessor_no_execution_after
    ⟨[(1, HistoryTask.sampleTask)], [], [], [], []⟩ 1
  refine ⟨h.1 HistoryTask.sampleTask,
          h.2.1 [HistoryTask.ProcEvent.startExecute 1 HistoryTask.sampleTask],
          ?_⟩
  have h3 := (stopShardProcessor_no_execution_after
      ⟨[], [(1, HistoryTask.sampleTask)], [1], [], []⟩ 1).2.2
    ⟨[], [(1, HistoryTask.sampleTask)], [1], [], []⟩
    HistoryTask.sampleTask true (by decide) (by decide)
  exact h3.1

namespace Funcorder

/-- Receiver type expression as inspected by `getRecvStructName`: a star
expression over an identifier, or any other type expression (opaque). -/
inductive DstExpr where
  | starIdent (name : GoString)
  | otherExpr (tag : Nat)
deriving DecidableEq

/-- A function declaration: its name, the optional receiver field type list
and an opaque body tag. -/
structure DstFuncDecl where
  funcName : GoString
  recvFields : Option (List DstExpr)
  bodyTag : Nat
deriving DecidableEq

/-- A top level declaration: a function declaration, or any other
declaration kind (types, constants, variables), carried opaquely. -/
inductive DstDecl where
  | funcDecl (fd : DstFuncDecl)
  | otherDecl (tag : Nat)
deriving DecidableEq

/-- Embeds `ast.Ident.IsExported` for ASCII identifiers: the first character
is an upper case letter. -/
def isExported (name : GoString) : Bool :=
  match name with
  | c :: _ => decide ('A' ≤ c) && decide (c ≤ 'Z')
  | [] => false

/-- Embeds `getRecvStructName`: the identifier under the star type of the
single receiver field of an exported method; the empty string otherwise. -/
def getRecvStructName (fd : DstFuncDecl) : GoString :=
  match fd.recvFields with
  | none => []
  | some fields =>
    if fields.length = 1 ∧ isExported fd.funcName = true then
      match fields.head? with
      | some (DstExpr.starIdent name) => name
      | _ => []
    else []

/-- Embeds `isMock`: a name longer than four characters whose first four
characters are `Mock`. -/
def isMock (s : GoString) : Bool :=
  decide (s.length > 4) && (s.take 4 == ['M', 'o', 'c', 'k'])

/-- Embeds the `recvFunc` record: a declaration position and the method
name found there. -/
structure recvFunc where
  Index : Nat
  FuncName : GoString
deriving DecidableEq

/-- A declaration the analyzer may reorder: an exported method with a single
pointer receiver whose receiver type name is not a mock name. -/
def movable (d : DstDecl) : Bool :=
  match d with
  | DstDecl.funcDecl fd =>
    !(getRecvStructName fd == []) && !(isMock (getRecvStructName fd))
  | DstDecl.otherDecl _ => false

/-- Appends a method entry to its receiver's bucket, creating the bucket at
the end on first use.  The Go code keys the buckets with a map; buckets of
different receivers act on disjoint declaration slots, so the bucket order
does not affect the properties proved here. -/
def insertRecvFunc (m : List (GoString × List recvFunc)) (recv : GoString)
    (rf : recvFunc) : List (GoString × List recvFunc) :=
  match m with
  | [] => [(recv, [rf])]
  | (k, fns) :: rest =>
    if k == recv then (k, fns ++ [rf]) :: rest
    else (k, fns) :: insertRecvFunc rest recv rf

/-- Embeds the first loop of `run`: walk the declarations with their index,
skipping non-methods, unexported or non-star receivers, and mock receivers;
record everything else under its receiver name. -/
def collectAux : Nat → List DstDecl → List (GoString × List recvFunc) →
    List (GoString × List recvFunc)
  | _, [], m => m
  | i, d :: rest, m =>
    match d with
    | DstDecl.funcDecl fd =>
      if getRecvStructName fd == [] || isMock (getRecvStructName fd) then
        collectAux (i + 1) rest m
      else
        collectAux (i + 1) rest
          (insertRecvFunc m (getRecvStructName fd) ⟨i, fd.funcName⟩)
    | DstDecl.otherDecl _ => collectAux (i + 1) rest m

/-- The receiver to methods mapping built by `run`. -/
def collectRecvFuncs (decls : List DstDecl) :
    List (GoString × List recvFunc) :=
  collectAux 0 decls []

/-- Embeds `strings.Compare(a, b) > 0`: `a` is lexicographically greater
than `b`. -/
def stringGT : GoString → GoString → Bool
  | [], _ => false
  | _ :: _, [] => true
  | a :: as, b :: bs => if a = b then stringGT as bs else decide (b < a)

/-- Swap the declarations held at two positions, as the parallel assignment
in `run` does (both positions are in range whenever `run` calls this). -/
def listSwap {α : Type} (l : List α) (i j : Nat) : List α :=
  match l[i]?, l[j]? with
  | some a, some b => (l.set i b).set j a
  | _, _ => l

/-- Embeds the inner reordering loop of `run`: compare the fixed entry `r1`
against each later entry and swap the two declaration slots when the method
names are out of order (the recorded entries themselves are never updated,
exactly as in the source). -/
def innerLoop (decls : List DstDecl) (r1 : recvFunc) :
    List recvFunc → List DstDecl
  | [] => decls
  | r2 :: rest =>
    innerLoop
      (if stringGT r1.FuncName r2.FuncName then
        listSwap decls r1.Index r2.Index
      else decls) r1 rest

/-- Embeds the outer reordering loop of `run` over one receiver's method
entries. -/
def outerLoop (decls : List DstDecl) : List recvFunc → List DstDecl
  | [] => decls
  | r1 :: rest => outerLoop (innerLoop decls r1 rest) rest

/-- Embeds `run` on one file's declaration list: collect each receiver's
exported methods, then reorder the corresponding declaration slots bucket
by bucket. -/
def run (decls : List DstDecl) : List DstDecl :=
  (collectRecvFuncs decls).foldl (fun ds kv => outerLoop ds kv.2) decls

end Funcorder

namespace Funcorder

theorem cons_set_perm {α : Type} : ∀ (t : List α) (m : Nat) (a : α)
    (hm : m < t.length), List.Perm (t[m] :: t.set m a) (a :: t)
  | b :: u, 0, a, _ => List.Perm.swap a b u
  | b :: u, m + 1, a, hm => by
    have hm2 : m < u.length := by simpa using hm
    have ih := cons_set_perm u m a hm2
    have h1 : List.Perm (u[m] :: b :: u.set m a) (b :: u[m] :: u.set m a) :=
      List.Perm.swap b (u[m]) (u.set m a)
    have h2 : List.Perm (b :: u[m] :: u.set m a) (b :: a :: u) :=
      List.Perm.cons b ih
    have h3 : List.Perm (b :: a :: u) (a :: b :: u) := List.Perm.swap a b u
    have h4 := (h1.trans h2).trans h3
    simpa using h4

theorem set_set_swap_perm {α : Type} : ∀ (l : List α) (i j : Nat)
    (hi : i < l.length) (hj : j < l.length),
    List.Perm ((l.set i l[j]).set j l[i]) l
  | c :: t, 0, 0, _, _ => by simp
  | c :: t, 0, m + 1, h0, hj => by
    have hm : m < t.length := by simpa using hj
    have he1 : (c :: t)[m + 1] = t[m] := by simp
    have he0 : (c :: t)[0] = c := by simp
    rw [he1, he0]
    show List.Perm ((t[m] :: t).set (m + 1) c) (c :: t)
    simp only [List.set_cons_succ]
    exact cons_set_perm t m c hm
  | c :: t, n + 1, 0, hi, h0 => by
    have hn : n < t.length := by simpa using hi
    have he1 : (c :: t)[n + 1] = t[n] := by simp
    have he0 : (c :: t)[0] = c := by simp
    rw [he1, he0]
    show List.Perm (t[n] :: t.set n c) (c :: t)
    exact cons_set_perm t n c hn
  | c :: t, n + 1, m + 1, hi, hj => by
    have hn : n < t.length := by simpa using hi
    have hm : m < t.length := by simpa using hj
    have he1 : (c :: t)[m + 1] = t[m] := by simp
    have he2 : (c :: t)[n + 1] = t[n] := by simp
    rw [he1, he2]
    show List.Perm (c :: (t.set n t[m]).set m t[n]) (c :: t)
    exact List.Perm.cons c (set_set_swap_perm t n m hn hm)

theorem listSwap_perm {α : Type} (l : List α) (i j : Nat) :
    List.Perm (listSwap l i j) l := by
  unfold listSwap
  split
  · rename_i a b ha hb
    obtain ⟨hi, hai⟩ := List.getElem?_eq_some.mp ha
    obtain ⟨hj, hbj⟩ := List.getElem?_eq_some.mp hb
    rw [← hai, ← hbj]
    exact set_set_swap_perm l i j hi hj
  · exact List.Perm.refl l

theorem listSwap_getElem? {α : Type} (l : List α) (i j k : Nat)
    (hki : k ≠ i) (hkj : k ≠ j) : (listSwap l i j)[k]? = l[k]? := by
  unfold listSwap
  split
  · rw [List.getElem?_set_ne (Ne.symm hkj), List.getElem?_set_ne (Ne.symm hki)]
  · rfl

theorem innerLoop_perm (r1 : recvFunc) :
    ∀ (rest : List recvFunc) (decls : List DstDecl),
      List.Perm (innerLoop decls r1 rest) decls
  | [], decls => List.Perm.refl decls
  | r2 :: rest, decls => by
    simp only [innerLoop]
    split
    · exact (innerLoop_perm r1 rest _).trans
        (listSwap_perm decls r1.Index r2.Index)
    · exact innerLoop_perm r1 rest decls

theorem innerLoop_getElem? (r1 : recvFunc) (k : Nat) (hk1 : k ≠ r1.Index) :
    ∀ (rest : List recvFunc) (decls : List DstDecl),
      (∀ r2 ∈ rest, k ≠ r2.Index) →
      (innerLoop decls r1 rest)[k]? = decls[k]?
  | [], decls, _ => rfl
  | r2 :: rest, decls, hrest => by
    simp only [innerLoop]
    have h2 : k ≠ r2.Index := hrest r2 (by simp)
    have hr : ∀ r ∈ rest, k ≠ r.Index := fun r h => hrest r (by simp [h])
    split
    · rw [innerLoop_getElem? r1 k hk1 rest _ hr,
        listSwap_getElem? decls r1.Index r2.Index k hk1 h2]
    · exact innerLoop_getElem? r1 k hk1 rest decls hr

theorem outerLoop_perm : ∀ (fl : List recvFunc) (decls : List DstDecl),
    List.Perm (outerLoop decls fl) decls
  | [], decls => List.Perm.refl decls
  | r1 :: rest, decls => by
    simp only [outerLoop]
    exact (outerLoop_perm rest _).trans (innerLoop_perm r1 rest decls)

theorem outerLoop_getElem? (k : Nat) :
    ∀ (fl : List recvFunc) (decls : List DstDecl),
      (∀ r ∈ fl, k ≠ r.Index) → (outerLoop decls fl)[k]? = decls[k]?
  | [], decls, _ => rfl
  | r1 :: rest, decls, hfl => by
    simp only [outerLoop]
    have h1 : k ≠ r1.Index := hfl r1 (by simp)
    have hr : ∀ r ∈ rest, k ≠ r.Index := fun r h => hfl r (by simp [h])
    rw [outerLoop_getElem? k rest _ hr,
      innerLoop_getElem? r1 k h1 rest decls hr]

theorem foldOuter_perm : ∀ (m : List (GoString × List recvFunc))
    (ds : List DstDecl),
    List.Perm (m.foldl (fun ds2 kv => outerLoop ds2 kv.2) ds) ds
  | [], ds => List.Perm.refl ds
  | kv :: rest, ds => by
    simp only [List.foldl_cons]
    exact (foldOuter_perm rest _).trans (outerLoop_perm kv.2 ds)

theorem foldOuter_getElem? (k : Nat) :
    ∀ (m : List (GoString × List recvFunc)) (ds : List DstDecl),
      (∀ kv ∈ m, ∀ rf ∈ kv.2, k ≠ rf.Index) →
      (m.foldl (fun ds2 kv => outerLoop ds2 kv.2) ds)[k]? = ds[k]?
  | [], ds, _ => rfl
  | kv :: rest, ds, hm => by
    simp only [List.foldl_cons]
    have h1 : ∀ rf ∈ kv.2, k ≠ rf.Index := hm kv (by simp)
    have hr : ∀ kv2 ∈ rest, ∀ rf ∈ kv2.2, k ≠ rf.Index :=
      fun kv2 h2 => hm kv2 (by simp [h2])
    rw [foldOuter_getElem? k rest _ hr, outerLoop_getElem? k kv.2 ds h1]

theorem insertRecvFunc_entries (Q : recvFunc → Prop) :
    ∀ (m : List (GoString × List recvFunc)) (recv : GoString)
      (rf0 : recvFunc),
      (∀ kv ∈ m, ∀ rf ∈ kv.2, Q rf) → Q rf0 →
      ∀ kv ∈ insertRecvFunc m recv rf0, ∀ rf ∈ kv.2, Q rf
  | [], recv, rf0, _, h0 => by
    intro kv hkv rf hrf
    simp only [insertRecvFunc, List.mem_singleton] at hkv
    subst hkv
    simp only [List.mem_singleton] at hrf
    exact hrf ▸ h0
  | (key, fns) :: rest, recv, rf0, hm, h0 => by
    intro kv hkv rf hrf
    simp only [insertRecvFunc] at hkv
    split at hkv
    · rcases List.mem_cons.mp hkv with he | hrest
      · subst he
        simp only [List.mem_append, List.mem_singleton] at hrf
        rcases hrf with h | h
        · exact hm (key, fns) (by simp) rf h
        · exact h ▸ h0
      · exact hm kv (by simp [hrest]) rf hrf
    · rcases List.mem_cons.mp hkv with he | hrest
      · subst he
        exact hm (key, fns) (by simp) rf hrf
      · exact insertRecvFunc_entries Q rest recv rf0
          (fun kv2 h2 => hm kv2 (by simp [h2])) h0 kv hrest rf hrf

theorem collectAux_entries (Q : recvFunc → Prop) :
    ∀ (ds : List DstDecl) (i : Nat) (m : List (GoString × List recvFunc)),
      (∀ kv ∈ m, ∀ rf ∈ kv.2, Q rf) →
      (∀ (j : Nat) (fd : DstFuncDecl),
        ds[j]? = some (DstDecl.funcDecl fd) →
        movable (DstDecl.funcDecl fd) = true → Q ⟨i + j, fd.funcName⟩) →
      ∀ kv ∈ collectAux i ds m, ∀ rf ∈ kv.2, Q rf
  | [], i, m, hm, _ => by
    simpa [collectAux] using hm
  | DstDecl.otherDecl tag :: rest, i, m, hm, hds => by
    simp only [collectAux]
    refine collectAux_entries Q rest (i + 1) m hm ?_
    intro j fd hj hmov
    have he : i + 1 + j = i + (j + 1) := by omega
    rw [he]
    exact hds (j + 1) fd (by simpa using hj) hmov
  | DstDecl.funcDecl fd0 :: rest, i, m, hm, hds => by
    simp only [collectAux]
    split
    · refine collectAux_entries Q rest (i + 1) m hm ?_
      intro j fd hj hmov
      have he : i + 1 + j = i + (j + 1) := by omega
      rw [he]
      exact hds (j + 1) fd (by simpa using hj) hmov
    · rename_i hcond
      have hmov0 : movable (DstDecl.funcDecl fd0) = true := by
        simp only [movable]
        simp only [Bool.or_eq_true, not_or] at hcond
        simp [hcond.1, hcond.2]
      have hq0 : Q ⟨i, fd0.funcName⟩ := by
        have h := hds 0 fd0 (by simp) hmov0
        simpa using h
      refine collectAux_entries Q rest (i + 1)
        (insertRecvFunc m (getRecvStructName fd0) ⟨i, fd0.funcName⟩)
        (insertRecvFunc_entries Q m (getRecvStructName fd0)
          ⟨i, fd0.funcName⟩ hm hq0) ?_
      intro j fd hj hmov
      have he : i + 1 + j = i + (j + 1) := by omega
      rw [he]
      exact hds (j + 1) fd (by simpa using hj) hmov

theorem run_perm (decls : List DstDecl) : List.Perm (run decls) decls :=
  foldOuter_perm (collectRecvFuncs decls) decls

theorem run_fixes_nonmovable (decls : List DstDecl) (k : Nat) (d : DstDecl)
    (hd : decls[k]? = some d) (hmov : movable d = false) :
    (run decls)[k]? = some d := by
  have hQ : ∀ kv ∈ collectRecvFuncs decls, ∀ rf ∈ kv.2, k ≠ rf.Index := by
    refine collectAux_entries (fun rf => k ≠ rf.Index) decls 0 []
      (by simp) ?_
    intro j fd hj hmov2 he
    simp only [Nat.zero_add] at he
    rw [he] at hd
    rw [hj] at hd
    obtain rfl : DstDecl.funcDecl fd = d := by simpa using hd
    rw [hmov2] at hmov
    exact Bool.true_eq_false.mp hmov
  show ((collectRecvFuncs decls).foldl
    (fun ds2 kv => outerLoop ds2 kv.2) decls)[k]? = some d
  rw [foldOuter_getElem? k (collectRecvFuncs decls) decls hQ]
  exact hd

end Funcorder

/-- C10: the funcorder rewrite keeps exactly the same multiset of top level
declarations (slots are only permuted by pairwise swaps), the only
declarations whose position can change are exported methods with a single
pointer receiver whose receiver type name is not a mock name (longer than
four characters and starting with `Mock`), and a method on a receiver named
exactly `Mock` is still subject to reordering. -/
theorem funcorder_run_preserves_declarations (decls : List Funcorder.DstDecl) :
    List.Perm (Funcorder.run decls) decls ∧
    (∀ (k : Nat) (d : Funcorder.DstDecl), decls[k]? = some d →
      Funcorder.movable d = false → (Funcorder.run decls)[k]? = some d) ∧
    Funcorder.isMock ['M', 'o', 'c', 'k'] = false :=
  ⟨Funcorder.run_perm decls,
   fun k d => Funcorder.run_fixes_nonmovable decls k d,
   by decide⟩

/-- Witness for C10: on a file with a non-method declaration followed by two
out-of-order exported methods of receiver `T`, the rewrite keeps the
non-method in place while the methods are swapped into name order. -/
theorem funcorder_run_preserves_declarations_witness :
    (Funcorder.run
      [Funcorder.DstDecl.otherDecl 0,
       Funcorder.DstDecl.funcDecl
         ⟨['B'], some [Funcorder.DstExpr.starIdent ['T']], 1⟩,
       Funcorder.DstDecl.funcDecl
         ⟨['A'], some [Funcorder.DstExpr.starIdent ['T']], 2⟩])[0]? =
      some (Funcorder.DstDecl.otherDecl 0) :=
  (funcorder_run_preserves_declarations
    [Funcorder.DstDecl.otherDecl 0,
     Funcorder.DstDecl.funcDecl
       ⟨['B'], some [Funcorder.DstExpr.starIdent ['T']], 1⟩,
     Funcorder.DstDecl.funcDecl
       ⟨['A'], some [Funcorder.DstExpr.starIdent ['T']], 2⟩]).2.1 0
    (Funcorder.DstDecl.otherDecl 0) (by decide) (by decide)
